import Mathlib

/-!
Verification of the PTSA repository (`src/AbstractSA.py`): a shallow embedding of
the simulated-annealing (SA) class and its parallel-tempering extension (PTSA),
together with proofs settling the specification claims.

Modelling conventions:
* Costs, temperatures and the cooling parameters are exact rationals (ℚ);
  the uniform draws of `np.random.rand()` / `np.random.random()` are real
  numbers in `[0,1)` passed in explicitly, and `np.exp` is the real exponential.
* The caller-supplied objective is `obj : X → ℚ` and the caller-supplied
  transition operator is `tr : X → X` (both pure, per the interface contract).
* Stochastic branches are modelled two ways, both directly off the source:
  relationally (the branch condition written out over ℝ, for the Metropolis
  acceptance test of `SA.step` / `PTSA.step`), and with the resolved Boolean
  outcome of each draw passed in as an oracle (for the coordinator's exchange
  sweep, whose claims quantify over every outcome of the skip/accept draws).
* Deep copies (`copy.deepcopy`) are identities in this value-semantic model.
-/

/-- Mutable per-replica state of the `SA` class: the fields set in
`SA.__init__` (lines 25–36 of `AbstractSA.py`) that the annealing core reads
or writes — current state `x`, current cost `y`, best state `best_x`, best
cost `best_y`, temperature `T`, and the cooling parameters `T_i`, `T_f`,
`decay`. -/
structure SAState (X : Type) where
  x : X
  y : ℚ
  best_x : X
  best_y : ℚ
  T : ℚ
  T_i : ℚ
  T_f : ℚ
  decay : ℚ
  deriving Repr

namespace SA

variable {X : Type}

/-- Embedding of `SA.__init__` (lines 25–34): `x = deepcopy(x0)`,
`y = obj(x0)`, `best_x = deepcopy(x0)`, `best_y = y`, `T = T_i`. -/
def init (obj : X → ℚ) (x0 : X) (Ti Tf d : ℚ) : SAState X :=
  { x := x0, y := obj x0, best_x := x0, best_y := obj x0,
    T := Ti, T_i := Ti, T_f := Tf, decay := d }

/-- The Metropolis acceptance condition of line 76,
`df < 0 or np.exp(-df / self.T) > np.random.rand()`, with `u` the value of
the uniform draw. -/
def acceptCond (df T : ℚ) (u : ℝ) : Prop :=
  df < 0 ∨ u < Real.exp (-(df : ℝ) / (T : ℝ))

/-- The state update performed by an accepted Metropolis trial
(lines 77–79): `x, y = x_new, y_new`, and if `y_new < best_y` also
`best_x, best_y = deepcopy(x_new), deepcopy(y_new)`. -/
def accepted (obj : X → ℚ) (tr : X → X) (s : SAState X) : SAState X :=
  let x_new := tr s.x
  let y_new := obj x_new
  { s with
    x := x_new
    y := y_new
    best_x := if y_new < s.best_y then x_new else s.best_x
    best_y := if y_new < s.best_y then y_new else s.best_y }

/-- One Metropolis trial of the loop body of `SA.step` (lines 71–79), with
the outcome of the acceptance test resolved into the Boolean `b`. -/
def trialCore (obj : X → ℚ) (tr : X → X) (b : Bool) (s : SAState X) :
    SAState X :=
  if b then accepted obj tr s else s

/-- One Metropolis trial of `SA.step` (lines 71–79) as a step relation on
`SAState`, with `u` the uniform draw of the acceptance test: the trial is
accepted iff `df < 0` or `u < exp(-df/T)`, where `x_new = tr s.x`,
`y_new = obj x_new`, `df = y_new - s.y`. -/
def TrialStep (obj : X → ℚ) (tr : X → X) (u : ℝ) (s s' : SAState X) : Prop :=
  (acceptCond (obj (tr s.x) - s.y) s.T u ∧ s' = accepted obj tr s) ∨
    (¬ acceptCond (obj (tr s.x) - s.y) s.T u ∧ s' = s)

/-- The full inner loop of `SA.step` (line 71: `for i in range(self._reps)`),
with the resolved acceptance outcomes supplied by the oracle `b`. -/
def stepCore (obj : X → ℚ) (tr : X → X) (reps : ℕ) (b : ℕ → Bool)
    (s : SAState X) : SAState X :=
  (List.range reps).foldl (fun t i => trialCore obj tr (b i) t) s

/-- Embedding of `SA.cool_down` (line 96): `self.T *= self._decay`. -/
def cool (s : SAState X) : SAState X :=
  { s with T := s.T * s.decay }

end SA

/-- Possible outcomes of one Metropolis acceptance test under exact Python
float semantics: `accept`, `reject`, or `fault` (the unguarded division
`-df / self.T` on line 76 / 140 raises `ZeroDivisionError` once the
temperature has underflowed to exactly `0`; nothing in the source clamps the
exponent). -/
inductive TrialResult where
  | accept : TrialResult
  | reject : TrialResult
  | fault : TrialResult
  deriving DecidableEq, Repr

/-- Outcome of the acceptance test `df < 0 or np.exp(-df / self.T) > u`
(line 76 / line 140) as written, including Python's evaluation order: `df < 0`
short-circuits to accept without touching `T`; otherwise the division
`-df / T` is evaluated, faulting when `T = 0` (no clamp exists in the
source), and only when `T ≠ 0` does the comparison with the draw `u`
decide accept/reject. -/
def AcceptOutcome (df T : ℚ) (u : ℝ) : TrialResult → Prop
  | TrialResult.accept => df < 0 ∨ (T ≠ 0 ∧ u < Real.exp (-(df : ℝ) / (T : ℝ)))
  | TrialResult.reject => 0 ≤ df ∧ T ≠ 0 ∧ Real.exp (-(df : ℝ) / (T : ℝ)) ≤ u
  | TrialResult.fault => 0 ≤ df ∧ T = 0

/-- Mutable per-replica state of the `PTSA` class: the `SA` fields plus
`theta` and `rank` (lines 112–114). -/
structure PTSAState (X : Type) where
  x : X
  y : ℚ
  best_x : X
  best_y : ℚ
  T : ℚ
  T_i : ℚ
  T_f : ℚ
  decay : ℚ
  theta : ℚ
  rank : ℕ
  deriving Repr

/-- The `SA`-class portion of a `PTSA` replica's state. -/
def PTSAState.toSA {X : Type} (s : PTSAState X) : SAState X :=
  { x := s.x, y := s.y, best_x := s.best_x, best_y := s.best_y,
    T := s.T, T_i := s.T_i, T_f := s.T_f, decay := s.decay }

namespace PTSA

variable {X : Type}

/-- The state update performed by an accepted Metropolis trial of
`PTSA.step` (lines 141–143, a re-implementation of `SA.step`'s body). -/
def accepted (obj : X → ℚ) (tr : X → X) (s : PTSAState X) : PTSAState X :=
  let x_new := tr s.x
  let y_new := obj x_new
  { s with
    x := x_new
    y := y_new
    best_x := if y_new < s.best_y then x_new else s.best_x
    best_y := if y_new < s.best_y then y_new else s.best_y }

/-- One Metropolis trial of the loop body of `PTSA.step` (lines 135–143),
with the outcome of the acceptance test resolved into the Boolean `b`. -/
def trialCore (obj : X → ℚ) (tr : X → X) (b : Bool) (s : PTSAState X) :
    PTSAState X :=
  if b then accepted obj tr s else s

/-- One Metropolis trial of `PTSA.step` (lines 135–143) as a step relation,
with `u` the uniform draw of the acceptance test on line 140. -/
def TrialStep (obj : X → ℚ) (tr : X → X) (u : ℝ) (s s' : PTSAState X) :
    Prop :=
  (SA.acceptCond (obj (tr s.x) - s.y) s.T u ∧ s' = accepted obj tr s) ∨
    (¬ SA.acceptCond (obj (tr s.x) - s.y) s.T u ∧ s' = s)

/-- The full inner loop of `PTSA.step` (line 135), with the resolved
acceptance outcomes supplied by the oracle `b`. -/
def stepCore (obj : X → ℚ) (tr : X → X) (reps : ℕ) (b : ℕ → Bool)
    (s : PTSAState X) : PTSAState X :=
  (List.range reps).foldl (fun t i => trialCore obj tr (b i) t) s

/-- The cooling step `self.cool_down()` as inherited by `PTSA` (line 96). -/
def cool (s : PTSAState X) : PTSAState X :=
  { s with T := s.T * s.decay }

end PTSA

/-- Observation record for one adjacent pair visited by the coordinator's
exchange loop (lines 178–185): the four values read and fed into the
acceptance computation, whether the pair was attempted (the skip draw
satisfied `random() > theta`), and whether the temperatures were swapped. -/
structure SweepEntry where
  T1 : ℚ
  fx1 : ℚ
  T2 : ℚ
  fx2 : ℚ
  attempted : Bool
  swapped : Bool
  deriving DecidableEq, Repr

/-- Embedding of `np.argsort(T)` (line 177): the list of positions of `T`
sorted by ascending temperature value. -/
def argsort (T : List ℚ) : List ℕ :=
  List.insertionSort (fun i j => T.getD i 0 ≤ T.getD j 0) (List.range T.length)

/-- One iteration of the coordinator's pairwise exchange loop
(lines 178–185) acting on the in-place mutated temperature list `st.1` and
appending its observation record to `st.2`. The skip draw
(`np.random.random() > self.theta`, line 181) is resolved by `att i`, and
the acceptance draw comparison (`accept_rate > np.random.random()`,
line 183) is resolved by `acc i T1 T2 fx1 fx2` — a function of exactly the
four values the computed `accept_rate` depends on. `fx` is read from the
gathered best costs (never written); the temperatures are read from the
current list `st.1`, exactly as the source reads the mutated `T`. -/
def pairStep (fx : List ℚ) (idx : List ℕ) (att : ℕ → Bool)
    (acc : ℕ → ℚ → ℚ → ℚ → ℚ → Bool) (st : List ℚ × List SweepEntry)
    (i : ℕ) : List ℚ × List SweepEntry :=
  let T := st.1
  let sol1 := idx.getD i 0
  let sol2 := idx.getD (i + 1) 0
  let T1 := T.getD sol1 0
  let T2 := T.getD sol2 0
  let fx1 := fx.getD sol1 0
  let fx2 := fx.getD sol2 0
  let a := att i
  let sw := a && acc i T1 T2 fx1 fx2
  (if sw then (T.set sol1 T2).set sol2 T1 else T,
    st.2 ++ [⟨T1, fx1, T2, fx2, a, sw⟩])

/-- The exchange loop of lines 177–185 truncated to its first `k` pairs,
starting from the gathered temperature list `T0` and best-cost list `fx`. -/
def sweepUpto (T0 fx : List ℚ) (att : ℕ → Bool)
    (acc : ℕ → ℚ → ℚ → ℚ → ℚ → Bool) (k : ℕ) : List ℚ × List SweepEntry :=
  (List.range k).foldl (pairStep fx (argsort T0) att acc) (T0, [])

/-- The full exchange decision phase of `PTSA.run` (lines 177–185):
`index = np.argsort(T)`, then `for i in range(SIZE - 1)` over adjacent
sorted pairs. Returns the post-sweep temperature list together with the
trace of per-pair observations. -/
def ptsaSweep (T0 fx : List ℚ) (att : ℕ → Bool)
    (acc : ℕ → ℚ → ℚ → ℚ → ℚ → Bool) : List ℚ × List SweepEntry :=
  sweepUpto T0 fx att acc (T0.length - 1)

/-- The exchange acceptance rate of line 182:
`np.exp(-fx[sol2]/T[sol1] - fx[sol1]/T[sol2] + fx[sol2]/T[sol2] + fx[sol1]/T[sol1])`,
with `T1, fx1` the values read for the lower-temperature replica of the
pair and `T2, fx2` those of the higher one. -/
noncomputable def accRate (T1 T2 fx1 fx2 : ℝ) : ℝ :=
  Real.exp (-fx2 / T1 - fx1 / T2 + fx2 / T2 + fx1 / T1)

/-- The scatter phase of line 191: replica `r` adopts the `r`-th entry of
the coordinator's post-sweep temperature list as its new `T`. -/
def scatter {X : Type} (pool : List (PTSAState X)) (Ts : List ℚ) :
    List (PTSAState X) :=
  pool.zipWith (fun s t => { s with T := t }) Ts

/-- One outer iteration of the PTSA loop (lines 155–196) in lock-step pool
form: every replica runs its annealing step, the coordinator gathers the
temperatures and best costs, runs the exchange sweep, scatters the
(possibly swapped) temperatures, and every replica cools down. `B r` is
replica `r`'s acceptance-outcome oracle for this iteration's trials. -/
def ptsaIter {X : Type} (obj : X → ℚ) (tr : X → X) (reps : ℕ)
    (B : ℕ → ℕ → Bool) (att : ℕ → Bool) (acc : ℕ → ℚ → ℚ → ℚ → ℚ → Bool)
    (pool : List (PTSAState X)) : List (PTSAState X) :=
  let p1 := pool.mapIdx fun r s => PTSA.stepCore obj tr reps (B r) s
  let Ts := p1.map fun s => s.T
  let fxs := p1.map fun s => s.best_y
  (scatter p1 (ptsaSweep Ts fxs att acc).1).map PTSA.cool

/-- The PTSA outer loop (lines 154–196): exactly `iters` iterations of
`ptsaIter`, with per-iteration oracles. -/
def ptsaRun {X : Type} (obj : X → ℚ) (tr : X → X) (reps iters : ℕ)
    (B : ℕ → ℕ → ℕ → Bool) (att : ℕ → ℕ → Bool)
    (acc : ℕ → ℕ → ℚ → ℚ → ℚ → ℚ → Bool) (pool : List (PTSAState X)) :
    List (PTSAState X) :=
  (List.range iters).foldl
    (fun p it => ptsaIter obj tr reps (B it) (att it) (acc it) p) pool

/-- Modelled from the spec (section 4.4 and the degenerate `N = 1` case):
a plain SA run driven by a fixed budget of `iters` outer iterations, each
performing one annealing step then one cooling step, ignoring the
temperature floor. This is the reference process PTSA is claimed to
degenerate to when `N = 1`. -/
def saFixedBudget {X : Type} (obj : X → ℚ) (tr : X → X) (reps : ℕ)
    (B : ℕ → ℕ → Bool) (iters : ℕ) (s : SAState X) : SAState X :=
  (List.range iters).foldl
    (fun t it => SA.cool (SA.stepCore obj tr reps (B it) t)) s

section SAFrames

variable {X : Type} (obj : X → ℚ) (tr : X → X)

theorem SA.trialCore_T (b : Bool) (s : SAState X) :
    (SA.trialCore obj tr b s).T = s.T := by
  cases b <;> simp [SA.trialCore, SA.accepted]

theorem SA.trialCore_T_i (b : Bool) (s : SAState X) :
    (SA.trialCore obj tr b s).T_i = s.T_i := by
  cases b <;> simp [SA.trialCore, SA.accepted]

theorem SA.trialCore_T_f (b : Bool) (s : SAState X) :
    (SA.trialCore obj tr b s).T_f = s.T_f := by
  cases b <;> simp [SA.trialCore, SA.accepted]

theorem SA.trialCore_decay (b : Bool) (s : SAState X) :
    (SA.trialCore obj tr b s).decay = s.decay := by
  cases b <;> simp [SA.trialCore, SA.accepted]

theorem SA.trialCore_best_le (b : Bool) (s : SAState X) :
    (SA.trialCore obj tr b s).best_y ≤ s.best_y := by
  cases b with
  | false => simp [SA.trialCore]
  | true =>
      simp only [SA.trialCore, SA.accepted, if_true]
      split
      · exact le_of_lt (by assumption)
      · exact le_refl _

theorem SA.stepCore_succ (reps : ℕ) (b : ℕ → Bool) (s : SAState X) :
    SA.stepCore obj tr (reps + 1) b s =
      SA.trialCore obj tr (b reps) (SA.stepCore obj tr reps b s) := by
  simp [SA.stepCore, List.range_succ]

theorem SA.stepCore_T (reps : ℕ) (b : ℕ → Bool) (s : SAState X) :
    (SA.stepCore obj tr reps b s).T = s.T := by
  induction reps with
  | zero => rfl
  | succ n ih => rw [SA.stepCore_succ, SA.trialCore_T, ih]

theorem SA.stepCore_T_f (reps : ℕ) (b : ℕ → Bool) (s : SAState X) :
    (SA.stepCore obj tr reps b s).T_f = s.T_f := by
  induction reps with
  | zero => rfl
  | succ n ih => rw [SA.stepCore_succ, SA.trialCore_T_f, ih]

theorem SA.stepCore_decay (reps : ℕ) (b : ℕ → Bool) (s : SAState X) :
    (SA.stepCore obj tr reps b s).decay = s.decay := by
  induction reps with
  | zero => rfl
  | succ n ih => rw [SA.stepCore_succ, SA.trialCore_decay, ih]

theorem SA.stepCore_best_le (reps : ℕ) (b : ℕ → Bool) (s : SAState X) :
    (SA.stepCore obj tr reps b s).best_y ≤ s.best_y := by
  induction reps with
  | zero => exact le_refl _
  | succ n ih =>
      rw [SA.stepCore_succ]
      exact le_trans (SA.trialCore_best_le obj tr _ _) ih

theorem SA.cool_T (s : SAState X) : (SA.cool s).T = s.T * s.decay := rfl

theorem SA.cool_T_f (s : SAState X) : (SA.cool s).T_f = s.T_f := rfl

theorem SA.cool_decay (s : SAState X) : (SA.cool s).decay = s.decay := rfl

end SAFrames

/-- Geometric decay below a positive floor is reached after finitely many
multiplications by a factor `d` with `0 < d < 1`. -/
theorem decay_reaches (T Tf d : ℚ) (hTf : 0 < Tf) (hd0 : 0 < d)
    (hd1 : d < 1) : ∃ k : ℕ, T * d ^ k ≤ Tf := by
  rcases le_or_lt T 0 with hT | hT
  · exact ⟨0, by simpa using hT.trans hTf.le⟩
  · obtain ⟨k, hk⟩ := exists_pow_lt_of_lt_one (div_pos hTf hT) hd1
    refine ⟨k, le_of_lt ?_⟩
    have := (mul_lt_mul_left hT).mpr hk
    rwa [mul_div_cancel₀ _ (ne_of_gt hT)] at this

/-- Number of cooling steps until the temperature first reaches the floor:
the least `k` with `T * d ^ k ≤ Tf`. -/
def decaySteps (T Tf d : ℚ) (h : ∃ k : ℕ, T * d ^ k ≤ Tf) : ℕ :=
  Nat.find h

theorem decaySteps_pos (T Tf d : ℚ) (h : ∃ k : ℕ, T * d ^ k ≤ Tf)
    (hT : Tf < T) : 0 < decaySteps T Tf d h := by
  rcases Nat.eq_zero_or_pos (Nat.find h) with hp | hp
  swap
  · exact hp
  · exfalso
    have := Nat.find_spec h
    rw [hp] at this
    simp only [pow_zero, mul_one] at this
    exact absurd this (not_le.mpr hT)

/-- After one cooling step the count of remaining cooling steps drops by
exactly one (while the loop guard `Tf < T` holds). -/
theorem decaySteps_succ (T Tf d : ℚ) (hT : Tf < T)
    (h : ∃ k : ℕ, T * d ^ k ≤ Tf) (h' : ∃ k : ℕ, T * d * d ^ k ≤ Tf) :
    decaySteps T Tf d h = decaySteps (T * d) Tf d h' + 1 := by
  have hpos : 0 < Nat.find h := decaySteps_pos T Tf d h hT
  have hle : Nat.find h' ≤ Nat.find h - 1 := by
    apply Nat.find_min' h'
    have : T * d * d ^ (Nat.find h - 1) = T * d ^ Nat.find h := by
      rw [mul_assoc, ← pow_succ', Nat.sub_add_cancel hpos]
    rw [this]
    exact Nat.find_spec h
  have hge : Nat.find h ≤ Nat.find h' + 1 := by
    apply Nat.find_min' h
    have : T * d ^ (Nat.find h' + 1) = T * d * d ^ Nat.find h' := by
      rw [pow_succ']
      ring
    rw [this]
    exact Nat.find_spec h'
  unfold decaySteps
  omega

namespace SA

variable {X : Type}

/-- Embedding of the `SA.run` loop (lines 102–104):
`while self.T > self.T_f: self.step(); self.cool_down()`, instrumented with
the count of outer iterations performed. `B it` is the acceptance-outcome
oracle for iteration `it`'s trials. The positivity and contraction
hypotheses on the cooling parameters (under which the source loop
terminates) justify the recursion. -/
def runAux (obj : X → ℚ) (tr : X → X) (reps : ℕ) (B : ℕ → ℕ → Bool)
    (it : ℕ) (s : SAState X) (hTf : 0 < s.T_f) (hd0 : 0 < s.decay)
    (hd1 : s.decay < 1) : SAState X × ℕ :=
  if h : s.T_f < s.T then
    let r := runAux obj tr reps B (it + 1)
      (cool (stepCore obj tr reps (B it) s))
      (by rw [cool_T_f, stepCore_T_f]; exact hTf)
      (by rw [cool_decay, stepCore_decay]; exact hd0)
      (by rw [cool_decay, stepCore_decay]; exact hd1)
    (r.1, r.2 + 1)
  else (s, 0)
termination_by decaySteps s.T s.T_f s.decay (decay_reaches s.T s.T_f s.decay hTf hd0 hd1)
decreasing_by
  simp only [cool_T, cool_T_f, cool_decay, stepCore_T, stepCore_T_f,
    stepCore_decay]
  have hsucc := decaySteps_succ s.T s.T_f s.decay h
    (decay_reaches s.T s.T_f s.decay hTf hd0 hd1)
    (decay_reaches (s.T * s.decay) s.T_f s.decay hTf hd0 hd1)
  omega

/-- Embedding of `SA.run` (lines 98–106): run the loop, then return
`(self.best_x, self.best_y)`. -/
def run (obj : X → ℚ) (tr : X → X) (reps : ℕ) (B : ℕ → ℕ → Bool)
    (s : SAState X) (hTf : 0 < s.T_f) (hd0 : 0 < s.decay)
    (hd1 : s.decay < 1) : X × ℚ :=
  ((runAux obj tr reps B 0 s hTf hd0 hd1).1.best_x,
    (runAux obj tr reps B 0 s hTf hd0 hd1).1.best_y)

/-- The instrumented run loop performs exactly `decaySteps` outer
iterations: the least number of decays bringing `T` to or below `T_f`. -/
theorem runAux_count (obj : X → ℚ) (tr : X → X) (reps : ℕ)
    (B : ℕ → ℕ → Bool) :
    ∀ (N it : ℕ) (s : SAState X) (hTf : 0 < s.T_f) (hd0 : 0 < s.decay)
      (hd1 : s.decay < 1),
      decaySteps s.T s.T_f s.decay
        (decay_reaches s.T s.T_f s.decay hTf hd0 hd1) = N →
      (runAux obj tr reps B it s hTf hd0 hd1).2 = N := by
  intro N
  induction N with
  | zero =>
      intro it s hTf hd0 hd1 hN
      have hstop : ¬ s.T_f < s.T := by
        intro hT
        have := decaySteps_pos s.T s.T_f s.decay
          (decay_reaches s.T s.T_f s.decay hTf hd0 hd1) hT
        omega
      rw [runAux, dif_neg hstop]
  | succ N ih =>
      intro it s hTf hd0 hd1 hN
      have hT : s.T_f < s.T := by
        by_contra hstop
        rw [not_lt] at hstop
        have : decaySteps s.T s.T_f s.decay
            (decay_reaches s.T s.T_f s.decay hTf hd0 hd1) = 0 := by
          unfold decaySteps
          rw [Nat.find_eq_zero]
          simpa using hstop
        omega
      rw [runAux, dif_pos hT]
      have hnext := ih (it + 1) (cool (stepCore obj tr reps (B it) s))
        (by rw [cool_T_f, stepCore_T_f]; exact hTf)
        (by rw [cool_decay, stepCore_decay]; exact hd0)
        (by rw [cool_decay, stepCore_decay]; exact hd1)
      have hsucc := decaySteps_succ s.T s.T_f s.decay hT
        (decay_reaches s.T s.T_f s.decay hTf hd0 hd1)
        (decay_reaches (s.T * s.decay) s.T_f s.decay hTf hd0 hd1)
      have harg : decaySteps (cool (stepCore obj tr reps (B it) s)).T
          (cool (stepCore obj tr reps (B it) s)).T_f
          (cool (stepCore obj tr reps (B it) s)).decay
          (decay_reaches _ _ _
            (by rw [cool_T_f, stepCore_T_f]; exact hTf)
            (by rw [cool_decay, stepCore_decay]; exact hd0)
            (by rw [cool_decay, stepCore_decay]; exact hd1)) = N := by
        simp only [cool_T, cool_T_f, cool_decay, stepCore_T, stepCore_T_f,
          stepCore_decay]
        omega
      exact congrArg (· + 1) (hnext harg)

end SA

/-- Characterization of the decay count by logarithms: the least `k` with
`T * d ^ k ≤ Tf` is `⌈log(Tf/T) / log d⌉` when `0 < Tf < T` and
`0 < d < 1`. -/
theorem decaySteps_eq_ceil (T Tf d : ℚ) (hTf : 0 < Tf) (hT : Tf < T)
    (hd0 : 0 < d) (hd1 : d < 1) (h : ∃ k : ℕ, T * d ^ k ≤ Tf) :
    (decaySteps T Tf d h : ℤ) =
      ⌈Real.log ((Tf : ℝ) / (T : ℝ)) / Real.log (d : ℝ)⌉ := by
  have hT0 : (0 : ℝ) < (T : ℝ) := by exact_mod_cast hTf.trans hT
  have hTfR : (0 : ℝ) < (Tf : ℝ) := by exact_mod_cast hTf
  have hdR : (0 : ℝ) < (d : ℝ) := by exact_mod_cast hd0
  have hd1R : (d : ℝ) < 1 := by exact_mod_cast hd1
  have hlogd : Real.log (d : ℝ) < 0 := Real.log_neg hdR hd1R
  have key : ∀ k : ℕ, T * d ^ k ≤ Tf ↔
      Real.log ((Tf : ℝ) / (T : ℝ)) / Real.log (d : ℝ) ≤ (k : ℝ) := by
    intro k
    have hpow : (0 : ℝ) < (d : ℝ) ^ k := pow_pos hdR k
    have c1 : T * d ^ k ≤ Tf ↔ (T : ℝ) * (d : ℝ) ^ k ≤ (Tf : ℝ) := by
      constructor
      · intro hh; exact_mod_cast hh
      · intro hh; exact_mod_cast hh
    rw [c1, ← Real.log_le_log_iff (by positivity) hTfR,
      Real.log_mul (ne_of_gt hT0) (ne_of_gt hpow), Real.log_pow,
      Real.log_div (ne_of_gt hTfR) (ne_of_gt hT0)]
    rw [div_le_iff_of_neg hlogd]
    constructor
    · intro hh; linarith
    · intro hh; linarith
  have hN1 : 1 ≤ Nat.find h := decaySteps_pos T Tf d h hT
  have hspec := (key _).mp (Nat.find_spec h)
  have hmin : ¬ T * d ^ (Nat.find h - 1) ≤ Tf :=
    Nat.find_min h (by omega)
  rw [key] at hmin
  rw [not_le] at hmin
  symm
  rw [Int.ceil_eq_iff]
  refine ⟨?_, ?_⟩
  · have hcast : ((Nat.find h - 1 : ℕ) : ℝ) = (Nat.find h : ℝ) - 1 := by
      push_cast [Nat.cast_sub hN1]
      ring
    rw [hcast] at hmin
    unfold decaySteps
    push_cast
    exact hmin
  · unfold decaySteps
    push_cast
    exact hspec

/-- Default entry used for out-of-range trace reads. -/
def SweepEntry.dflt : SweepEntry :=
  ⟨0, 0, 0, 0, false, false⟩

theorem cons_set_perm {α : Type} (l : List α) :
    ∀ (j : ℕ) (hj : j < l.length) (a : α),
      List.Perm (l[j] :: l.set j a) (a :: l) := by
  induction l with
  | nil => intro j hj a; simp at hj
  | cons b t ih =>
      intro j hj a
      match j with
      | 0 => exact List.Perm.swap a b t
      | i + 1 =>
          have hi : i < t.length := by simpa using hj
          simp only [List.getElem_cons_succ, List.set_cons_succ]
          exact ((List.Perm.swap b (t[i]) (t.set i a)).trans
            (List.Perm.cons b (ih i hi a))).trans (List.Perm.swap a b t)

theorem set_set_perm {α : Type} (l : List α) :
    ∀ (p q : ℕ) (hp : p < l.length) (hq : q < l.length),
      List.Perm ((l.set p l[q]).set q l[p]) l := by
  induction l with
  | nil => intro p q hp _; simp at hp
  | cons b t ih =>
      intro p q hp hq
      match p, q with
      | 0, 0 => simp
      | 0, j + 1 =>
          simp only [List.getElem_cons_succ, List.getElem_cons_zero,
            List.set_cons_zero, List.set_cons_succ]
          exact cons_set_perm t j (by simpa using hq) b
      | i + 1, 0 =>
          simp only [List.getElem_cons_succ, List.getElem_cons_zero,
            List.set_cons_zero, List.set_cons_succ]
          exact cons_set_perm t i (by simpa using hp) b
      | i + 1, j + 1 =>
          simp only [List.getElem_cons_succ, List.set_cons_succ]
          exact List.Perm.cons b
            (ih i j (by simpa using hp) (by simpa using hq))

theorem swap_getD_perm (l : List ℚ) (p q : ℕ) (hp : p < l.length)
    (hq : q < l.length) :
    List.Perm ((l.set p (l.getD q 0)).set q (l.getD p 0)) l := by
  rw [List.getD_eq_getElem l 0 hq, List.getD_eq_getElem l 0 hp]
  exact set_set_perm l p q hp hq

theorem getD_set_ne {α : Type} (l : List α) (m p : ℕ) (a d : α)
    (h : m ≠ p) : (l.set m a).getD p d = l.getD p d := by
  rcases lt_or_le p l.length with hlt | hge
  · rw [List.getD_eq_getElem _ d (by simpa using hlt),
      List.getD_eq_getElem l d hlt]
    exact List.getElem_set_ne (by omega) _
  · rw [List.getD_eq_default _ d (by simpa using hge),
      List.getD_eq_default l d hge]

theorem argsort_perm_range (T : List ℚ) :
    List.Perm (argsort T) (List.range T.length) :=
  List.perm_insertionSort _ _

theorem argsort_length (T : List ℚ) : (argsort T).length = T.length := by
  rw [(argsort_perm_range T).length_eq, List.length_range]

theorem argsort_nodup (T : List ℚ) : (argsort T).Nodup :=
  ((argsort_perm_range T).nodup_iff).mpr (List.nodup_range _)

theorem argsort_getD_lt (T : List ℚ) (i : ℕ) (hi : i < T.length) :
    (argsort T).getD i 0 < T.length := by
  have hlen : i < (argsort T).length := by rwa [argsort_length]
  rw [List.getD_eq_getElem _ 0 hlen]
  have hmem : (argsort T)[i] ∈ argsort T := List.getElem_mem hlen
  exact List.mem_range.mp ((argsort_perm_range T).mem_iff.mp hmem)

theorem argsort_getD_ne (T : List ℚ) (i j : ℕ) (hi : i < T.length)
    (hj : j < T.length) (hij : i ≠ j) :
    (argsort T).getD i 0 ≠ (argsort T).getD j 0 := by
  have hi' : i < (argsort T).length := by rwa [argsort_length]
  have hj' : j < (argsort T).length := by rwa [argsort_length]
  rw [List.getD_eq_getElem _ 0 hi', List.getD_eq_getElem _ 0 hj']
  intro hEq
  exact hij (((argsort_nodup T).getElem_inj_iff).mp hEq)

theorem sweepUpto_zero (T0 fx : List ℚ) (att : ℕ → Bool)
    (acc : ℕ → ℚ → ℚ → ℚ → ℚ → Bool) :
    sweepUpto T0 fx att acc 0 = (T0, []) := rfl

theorem sweepUpto_succ (T0 fx : List ℚ) (att : ℕ → Bool)
    (acc : ℕ → ℚ → ℚ → ℚ → ℚ → Bool) (k : ℕ) :
    sweepUpto T0 fx att acc (k + 1) =
      pairStep fx (argsort T0) att acc (sweepUpto T0 fx att acc k) k := by
  simp [sweepUpto, List.range_succ]

theorem pairStep_fst_length (fx : List ℚ) (idx : List ℕ) (att : ℕ → Bool)
    (acc : ℕ → ℚ → ℚ → ℚ → ℚ → Bool) (st : List ℚ × List SweepEntry)
    (i : ℕ) :
    (pairStep fx idx att acc st i).1.length = st.1.length := by
  unfold pairStep
  dsimp only
  split <;> simp

theorem sweepUpto_fst_length (T0 fx : List ℚ) (att : ℕ → Bool)
    (acc : ℕ → ℚ → ℚ → ℚ → ℚ → Bool) (k : ℕ) :
    (sweepUpto T0 fx att acc k).1.length = T0.length := by
  induction k with
  | zero => rfl
  | succ n ih => rw [sweepUpto_succ, pairStep_fst_length, ih]

theorem pairStep_fst_perm (fx : List ℚ) (idx : List ℕ) (att : ℕ → Bool)
    (acc : ℕ → ℚ → ℚ → ℚ → ℚ → Bool) (st : List ℚ × List SweepEntry)
    (i : ℕ) (h1 : idx.getD i 0 < st.1.length)
    (h2 : idx.getD (i + 1) 0 < st.1.length) :
    List.Perm (pairStep fx idx att acc st i).1 st.1 := by
  unfold pairStep
  dsimp only
  split
  · exact swap_getD_perm st.1 _ _ h1 h2
  · exact List.Perm.refl _

theorem pairStep_snd (fx : List ℚ) (idx : List ℕ) (att : ℕ → Bool)
    (acc : ℕ → ℚ → ℚ → ℚ → ℚ → Bool) (st : List ℚ × List SweepEntry)
    (i : ℕ) :
    (pairStep fx idx att acc st i).2 =
      st.2 ++ [⟨st.1.getD (idx.getD i 0) 0, fx.getD (idx.getD i 0) 0,
        st.1.getD (idx.getD (i + 1) 0) 0, fx.getD (idx.getD (i + 1) 0) 0,
        att i,
        att i && acc i (st.1.getD (idx.getD i 0) 0)
          (st.1.getD (idx.getD (i + 1) 0) 0) (fx.getD (idx.getD i 0) 0)
          (fx.getD (idx.getD (i + 1) 0) 0)⟩] := rfl

theorem sweepUpto_trace_length (T0 fx : List ℚ) (att : ℕ → Bool)
    (acc : ℕ → ℚ → ℚ → ℚ → ℚ → Bool) (k : ℕ) :
    (sweepUpto T0 fx att acc k).2.length = k := by
  induction k with
  | zero => rfl
  | succ n ih =>
      rw [sweepUpto_succ, pairStep_snd, List.length_append, ih]
      rfl

theorem getD_append_length {α : Type} (l : List α) (x d : α) :
    (l ++ [x]).getD l.length d = x := by
  rw [List.getD_eq_getElem _ d (by simp)]
  simp

theorem getD_append_eq_last {α : Type} (l : List α) (x d : α) (n : ℕ)
    (h : n = l.length) : (l ++ [x]).getD n d = x := by
  subst h
  exact getD_append_length l x d

/-- The values recorded at trace position `i` are exactly those read when
the exchange loop visited pair `i`: positions `index[i]`, `index[i+1]`, the
best costs from the gathered `fx`, and the temperatures from the mutated
list as it stood after the first `i` pairs. -/
theorem sweepUpto_trace_getD (T0 fx : List ℚ) (att : ℕ → Bool)
    (acc : ℕ → ℚ → ℚ → ℚ → ℚ → Bool) (i : ℕ) :
    ∀ k, i < k →
      (sweepUpto T0 fx att acc k).2.getD i SweepEntry.dflt =
        ⟨(sweepUpto T0 fx att acc i).1.getD ((argsort T0).getD i 0) 0,
          fx.getD ((argsort T0).getD i 0) 0,
          (sweepUpto T0 fx att acc i).1.getD ((argsort T0).getD (i + 1) 0) 0,
          fx.getD ((argsort T0).getD (i + 1) 0) 0,
          att i,
          att i && acc i
            ((sweepUpto T0 fx att acc i).1.getD ((argsort T0).getD i 0) 0)
            ((sweepUpto T0 fx att acc i).1.getD
              ((argsort T0).getD (i + 1) 0) 0)
            (fx.getD ((argsort T0).getD i 0) 0)
            (fx.getD ((argsort T0).getD (i + 1) 0) 0)⟩ := by
  intro k
  induction k with
  | zero => intro h; omega
  | succ n ih =>
      intro hik
      rcases Nat.lt_or_ge i n with hin | hin
      · rw [sweepUpto_succ, pairStep_snd,
          List.getD_append _ _ _ _ (by rw [sweepUpto_trace_length]; exact hin)]
        exact ih hin
      · have heq : i = n := by omega
        subst heq
        have hlen : (sweepUpto T0 fx att acc i).2.length = i :=
          sweepUpto_trace_length T0 fx att acc i
        rw [sweepUpto_succ, pairStep_snd,
          getD_append_eq_last _ _ _ _ hlen.symm]

/-- Positions of the temperature list at sorted ranks beyond the pairs
already visited still hold their gathered (pre-sweep) values. -/
theorem sweepUpto_fst_untouched (T0 fx : List ℚ) (att : ℕ → Bool)
    (acc : ℕ → ℚ → ℚ → ℚ → ℚ → Bool) :
    ∀ k p, k < p → p < T0.length →
      (sweepUpto T0 fx att acc k).1.getD ((argsort T0).getD p 0) 0 =
        T0.getD ((argsort T0).getD p 0) 0 := by
  intro k
  induction k with
  | zero => intro p _ _; rfl
  | succ n ih =>
      intro p hkp hp
      have h1 : (argsort T0).getD n 0 ≠ (argsort T0).getD p 0 :=
        argsort_getD_ne T0 n p (by omega) hp (by omega)
      have h2 : (argsort T0).getD (n + 1) 0 ≠ (argsort T0).getD p 0 :=
        argsort_getD_ne T0 (n + 1) p (by omega) hp (by omega)
      rw [sweepUpto_succ]
      show (if _ then _ else _ : List ℚ).getD _ 0 = _
      split
      · rw [getD_set_ne _ _ _ _ _ h2, getD_set_ne _ _ _ _ _ h1]
        exact ih p (by omega) hp
      · exact ih p (by omega) hp

/-- Every prefix of the exchange loop leaves the temperature list a
permutation of the gathered list. -/
theorem sweepUpto_fst_perm (T0 fx : List ℚ) (att : ℕ → Bool)
    (acc : ℕ → ℚ → ℚ → ℚ → ℚ → Bool) :
    ∀ k, k ≤ T0.length - 1 →
      List.Perm (sweepUpto T0 fx att acc k).1 T0 := by
  intro k
  induction k with
  | zero => intro _; exact List.Perm.refl _
  | succ n ih =>
      intro hk
      have hn : n + 1 < T0.length := by omega
      have hperm := ih (by omega)
      rw [sweepUpto_succ]
      refine List.Perm.trans (pairStep_fst_perm _ _ _ _ _ _ ?_ ?_) hperm
      · rw [sweepUpto_fst_length]
        exact argsort_getD_lt T0 n (by omega)
      · rw [sweepUpto_fst_length]
        exact argsort_getD_lt T0 (n + 1) hn

section PTSAFrames

variable {X : Type} (obj : X → ℚ) (tr : X → X)

theorem PTSA.accepted_toSA (s : PTSAState X) :
    (PTSA.accepted obj tr s).toSA = SA.accepted obj tr s.toSA := rfl

theorem PTSA.trialCore_toSA (b : Bool) (s : PTSAState X) :
    (PTSA.trialCore obj tr b s).toSA = SA.trialCore obj tr b s.toSA := by
  cases b <;> rfl

theorem PTSA.stepCoreSucc (reps : ℕ) (b : ℕ → Bool) (s : PTSAState X) :
    PTSA.stepCore obj tr (reps + 1) b s =
      PTSA.trialCore obj tr (b reps) (PTSA.stepCore obj tr reps b s) := by
  simp [PTSA.stepCore, List.range_succ]

theorem PTSA.stepCore_toSA (reps : ℕ) (b : ℕ → Bool) (s : PTSAState X) :
    (PTSA.stepCore obj tr reps b s).toSA =
      SA.stepCore obj tr reps b s.toSA := by
  induction reps with
  | zero => rfl
  | succ n ih =>
      rw [PTSA.stepCoreSucc, SA.stepCore_succ, PTSA.trialCore_toSA, ih]

theorem PTSA.cool_toSA (s : PTSAState X) :
    (PTSA.cool s).toSA = SA.cool s.toSA := rfl

theorem PTSA.trialCoreBestLe (b : Bool) (s : PTSAState X) :
    (PTSA.trialCore obj tr b s).best_y ≤ s.best_y := by
  cases b with
  | false => simp [PTSA.trialCore]
  | true =>
      simp only [PTSA.trialCore, PTSA.accepted, if_true]
      split
      · exact le_of_lt (by assumption)
      · exact le_refl _

theorem PTSA.stepCoreBestLe (reps : ℕ) (b : ℕ → Bool) (s : PTSAState X) :
    (PTSA.stepCore obj tr reps b s).best_y ≤ s.best_y := by
  induction reps with
  | zero => exact le_refl _
  | succ n ih =>
      rw [PTSA.stepCoreSucc]
      exact le_trans (PTSA.trialCoreBestLe obj tr _ _) ih

end PTSAFrames

/-- CLAIM C2. The spec requires the Metropolis exponent `exp(-Δ/T)` to be
clamped so that no overflow, division by zero, NaN or Inf can arise, with a
deterministic reject once `T` has underflowed to `0` with `Δ ≥ 0`. The code
computes `np.exp(-df / self.T)` with no clamp whatsoever (line 76 and
line 140): for every `Δ ≥ 0` and every draw, at `T = 0` the trial's
acceptance test faults (division by zero) — it does not resolve to reject,
and for `Δ > 0` it does not resolve to accept either. -/
theorem C2_exp_unclamped_fault (df : ℚ) (hdf : 0 ≤ df) (u : ℝ) :
    AcceptOutcome df 0 u TrialResult.fault ∧
      ¬ AcceptOutcome df 0 u TrialResult.reject ∧
      (0 < df → ¬ AcceptOutcome df 0 u TrialResult.accept) := by
  refine ⟨⟨hdf, rfl⟩, ?_, ?_⟩
  · rintro ⟨-, hT, -⟩
    exact hT rfl
  · intro hdf0 h
    rcases h with h | ⟨hT, -⟩
    · exact absurd h (not_lt.mpr hdf)
    · exact hT rfl

/-- Witness for C2 at the concrete failing input `Δ = 1`, `T = 0`,
`u = 1/2`. -/
theorem C2_exp_unclamped_fault_witness :
    AcceptOutcome 1 0 (1 / 2 : ℝ) TrialResult.fault ∧
      ¬ AcceptOutcome 1 0 (1 / 2 : ℝ) TrialResult.reject ∧
      (0 < (1 : ℚ) → ¬ AcceptOutcome 1 0 (1 / 2 : ℝ) TrialResult.accept) :=
  C2_exp_unclamped_fault 1 (by norm_num) (1 / 2)

/-- CLAIM C4. `best_cost ≤ current_cost` holds at construction (where
current = best = `x0` and both costs equal `obj x0`) and is preserved by
every Metropolis trial of `SA.step` and of `PTSA.step`, accepted or
rejected. -/
theorem C4_best_le_current {X : Type} (obj : X → ℚ) (tr : X → X) (x0 : X)
    (Ti Tf d : ℚ) (u : ℝ) (s s' : SAState X) (p p' : PTSAState X)
    (hs : SA.TrialStep obj tr u s s') (hp : PTSA.TrialStep obj tr u p p')
    (hinv : s.best_y ≤ s.y) (hpinv : p.best_y ≤ p.y) :
    (SA.init obj x0 Ti Tf d).y = obj x0 ∧
      (SA.init obj x0 Ti Tf d).best_y = obj x0 ∧
      (SA.init obj x0 Ti Tf d).x = x0 ∧
      (SA.init obj x0 Ti Tf d).best_x = x0 ∧
      (SA.init obj x0 Ti Tf d).best_y ≤ (SA.init obj x0 Ti Tf d).y ∧
      s'.best_y ≤ s'.y ∧ p'.best_y ≤ p'.y := by
  refine ⟨rfl, rfl, rfl, rfl, le_refl _, ?_, ?_⟩
  · rcases hs with ⟨-, rfl⟩ | ⟨-, rfl⟩
    · by_cases h : obj (tr s.x) < s.best_y <;>
        simp [SA.accepted, h, le_of_not_lt]
    · exact hinv
  · rcases hp with ⟨-, rfl⟩ | ⟨-, rfl⟩
    · by_cases h : obj (tr p.x) < p.best_y <;>
        simp [PTSA.accepted, h, le_of_not_lt]
    · exact hpinv

/-- Witness for C4: a rejected trial on a concrete state (cost increase
`Δ = 1` with draw `u = 1`, which is not below `exp(-1) < 1`). -/
theorem C4_best_le_current_witness :
    (SA.init (fun q : ℚ => q) 0 10 1 (1 / 2)).y = 0 ∧
      (SA.init (fun q : ℚ => q) 0 10 1 (1 / 2)).best_y = 0 ∧
      (SA.init (fun q : ℚ => q) 0 10 1 (1 / 2)).x = 0 ∧
      (SA.init (fun q : ℚ => q) 0 10 1 (1 / 2)).best_x = 0 ∧
      (SA.init (fun q : ℚ => q) 0 10 1 (1 / 2)).best_y ≤
        (SA.init (fun q : ℚ => q) 0 10 1 (1 / 2)).y ∧
      (⟨0, 0, 0, 0, 1, 10, 1, 1 / 2⟩ : SAState ℚ).best_y ≤
        (⟨0, 0, 0, 0, 1, 10, 1, 1 / 2⟩ : SAState ℚ).y ∧
      (⟨0, 0, 0, 0, 1, 10, 1, 1 / 2, 0, 0⟩ : PTSAState ℚ).best_y ≤
        (⟨0, 0, 0, 0, 1, 10, 1, 1 / 2, 0, 0⟩ : PTSAState ℚ).y := by
  have hrej : ¬ SA.acceptCond ((fun q : ℚ => q) ((· + 1) (0 : ℚ)) - 0) 1 1 := by
    rintro (h | h)
    · norm_num at h
    · rw [show ((fun q : ℚ => q) ((· + 1) (0 : ℚ)) - 0 : ℚ) = 1 by norm_num] at h
      have he : Real.exp (-((1 : ℚ) : ℝ) / ((1 : ℚ) : ℝ)) < 1 := by
        rw [Real.exp_lt_one_iff]
        push_cast
        norm_num
      linarith
  exact C4_best_le_current (fun q : ℚ => q) (· + 1) 0 10 1 (1 / 2) 1
    ⟨0, 0, 0, 0, 1, 10, 1, 1 / 2⟩ ⟨0, 0, 0, 0, 1, 10, 1, 1 / 2⟩
    ⟨0, 0, 0, 0, 1, 10, 1, 1 / 2, 0, 0⟩ ⟨0, 0, 0, 0, 1, 10, 1, 1 / 2, 0, 0⟩
    (Or.inr ⟨by simpa using hrej, rfl⟩) (Or.inr ⟨by simpa using hrej, rfl⟩)
    (le_refl _) (le_refl _)

/-- CLAIM C5. A Metropolis trial (in `SA.step` and in `PTSA.step`) with
proposal cost `cost' = obj (tr x)` and `Δ = cost' - y` is accepted iff
`Δ < 0` or the uniform draw is below `exp(-Δ/T)` (this is `SA.acceptCond`);
on acceptance the current state and cost become the proposal, and the best
state/cost are updated (to the proposal, deep copy being identity here) iff
`cost' < best_y`; otherwise the whole state is unchanged. -/
theorem C5_metropolis_acceptance {X : Type} (obj : X → ℚ) (tr : X → X)
    (u : ℝ) (s s' : SAState X) (p p' : PTSAState X)
    (hs : SA.TrialStep obj tr u s s') (hp : PTSA.TrialStep obj tr u p p') :
    (SA.acceptCond (obj (tr s.x) - s.y) s.T u →
      s'.x = tr s.x ∧ s'.y = obj (tr s.x) ∧
      (obj (tr s.x) < s.best_y →
        s'.best_x = tr s.x ∧ s'.best_y = obj (tr s.x)) ∧
      (¬ obj (tr s.x) < s.best_y →
        s'.best_x = s.best_x ∧ s'.best_y = s.best_y)) ∧
    (¬ SA.acceptCond (obj (tr s.x) - s.y) s.T u → s' = s) ∧
    (SA.acceptCond (obj (tr p.x) - p.y) p.T u →
      p'.x = tr p.x ∧ p'.y = obj (tr p.x) ∧
      (obj (tr p.x) < p.best_y →
        p'.best_x = tr p.x ∧ p'.best_y = obj (tr p.x)) ∧
      (¬ obj (tr p.x) < p.best_y →
        p'.best_x = p.best_x ∧ p'.best_y = p.best_y)) ∧
    (¬ SA.acceptCond (obj (tr p.x) - p.y) p.T u → p' = p) := by
  refine ⟨?_, ?_, ?_, ?_⟩
  · intro hacc
    rcases hs with ⟨-, rfl⟩ | ⟨hnot, -⟩
    · refine ⟨rfl, rfl, ?_, ?_⟩ <;> intro h <;> simp [SA.accepted, h]
    · exact absurd hacc hnot
  · intro hnot
    rcases hs with ⟨hacc, -⟩ | ⟨-, rfl⟩
    · exact absurd hacc hnot
    · rfl
  · intro hacc
    rcases hp with ⟨-, rfl⟩ | ⟨hnot, -⟩
    · refine ⟨rfl, rfl, ?_, ?_⟩ <;> intro h <;> simp [PTSA.accepted, h]
    · exact absurd hacc hnot
  · intro hnot
    rcases hp with ⟨hacc, -⟩ | ⟨-, rfl⟩
    · exact absurd hacc hnot
    · rfl

/-- Witness for C5: an accepted trial on a concrete state (cost decrease
`Δ = -1 < 0`, draw `u = 1/2`). -/
theorem C5_metropolis_acceptance_witness :
    (SA.acceptCond ((fun q : ℚ => q) ((· - 1) (5 : ℚ)) - 5) 1 (1 / 2) →
      (⟨4, 4, 4, 4, 1, 10, 1, 1 / 2⟩ : SAState ℚ).x = (· - 1) (5 : ℚ) ∧
      (⟨4, 4, 4, 4, 1, 10, 1, 1 / 2⟩ : SAState ℚ).y =
        (fun q : ℚ => q) ((· - 1) (5 : ℚ)) ∧
      ((fun q : ℚ => q) ((· - 1) (5 : ℚ)) <
          (⟨5, 5, 5, 5, 1, 10, 1, 1 / 2⟩ : SAState ℚ).best_y →
        (⟨4, 4, 4, 4, 1, 10, 1, 1 / 2⟩ : SAState ℚ).best_x =
          (· - 1) (5 : ℚ) ∧
        (⟨4, 4, 4, 4, 1, 10, 1, 1 / 2⟩ : SAState ℚ).best_y =
          (fun q : ℚ => q) ((· - 1) (5 : ℚ))) ∧
      (¬ (fun q : ℚ => q) ((· - 1) (5 : ℚ)) <
          (⟨5, 5, 5, 5, 1, 10, 1, 1 / 2⟩ : SAState ℚ).best_y →
        (⟨4, 4, 4, 4, 1, 10, 1, 1 / 2⟩ : SAState ℚ).best_x =
          (⟨5, 5, 5, 5, 1, 10, 1, 1 / 2⟩ : SAState ℚ).best_x ∧
        (⟨4, 4, 4, 4, 1, 10, 1, 1 / 2⟩ : SAState ℚ).best_y =
          (⟨5, 5, 5, 5, 1, 10, 1, 1 / 2⟩ : SAState ℚ).best_y)) ∧
    (¬ SA.acceptCond ((fun q : ℚ => q) ((· - 1) (5 : ℚ)) - 5) 1 (1 / 2) →
      (⟨4, 4, 4, 4, 1, 10, 1, 1 / 2⟩ : SAState ℚ) =
        ⟨5, 5, 5, 5, 1, 10, 1, 1 / 2⟩) ∧
    (SA.acceptCond ((fun q : ℚ => q) ((· - 1) (5 : ℚ)) - 5) 1 (1 / 2) →
      (⟨4, 4, 4, 4, 1, 10, 1, 1 / 2, 0, 0⟩ : PTSAState ℚ).x =
        (· - 1) (5 : ℚ) ∧
      (⟨4, 4, 4, 4, 1, 10, 1, 1 / 2, 0, 0⟩ : PTSAState ℚ).y =
        (fun q : ℚ => q) ((· - 1) (5 : ℚ)) ∧
      ((fun q : ℚ => q) ((· - 1) (5 : ℚ)) <
          (⟨5, 5, 5, 5, 1, 10, 1, 1 / 2, 0, 0⟩ : PTSAState ℚ).best_y →
        (⟨4, 4, 4, 4, 1, 10, 1, 1 / 2, 0, 0⟩ : PTSAState ℚ).best_x =
          (· - 1) (5 : ℚ) ∧
        (⟨4, 4, 4, 4, 1, 10, 1, 1 / 2, 0, 0⟩ : PTSAState ℚ).best_y =
          (fun q : ℚ => q) ((· - 1) (5 : ℚ))) ∧
      (¬ (fun q : ℚ => q) ((· - 1) (5 : ℚ)) <
          (⟨5, 5, 5, 5, 1, 10, 1, 1 / 2, 0, 0⟩ : PTSAState ℚ).best_y →
        (⟨4, 4, 4, 4, 1, 10, 1, 1 / 2, 0, 0⟩ : PTSAState ℚ).best_x =
          (⟨5, 5, 5, 5, 1, 10, 1, 1 / 2, 0, 0⟩ : PTSAState ℚ).best_x ∧
        (⟨4, 4, 4, 4, 1, 10, 1, 1 / 2, 0, 0⟩ : PTSAState ℚ).best_y =
          (⟨5, 5, 5, 5, 1, 10, 1, 1 / 2, 0, 0⟩ : PTSAState ℚ).best_y)) ∧
    (¬ SA.acceptCond ((fun q : ℚ => q) ((· - 1) (5 : ℚ)) - 5) 1 (1 / 2) →
      (⟨4, 4, 4, 4, 1, 10, 1, 1 / 2, 0, 0⟩ : PTSAState ℚ) =
        ⟨5, 5, 5, 5, 1, 10, 1, 1 / 2, 0, 0⟩) := by
  have hacc : SA.acceptCond ((fun q : ℚ => q) ((· - 1) (5 : ℚ)) - 5) 1 (1 / 2) :=
    Or.inl (by norm_num)
  exact C5_metropolis_acceptance (fun q : ℚ => q) (· - 1) (1 / 2)
    ⟨5, 5, 5, 5, 1, 10, 1, 1 / 2⟩ ⟨4, 4, 4, 4, 1, 10, 1, 1 / 2⟩
    ⟨5, 5, 5, 5, 1, 10, 1, 1 / 2, 0, 0⟩ ⟨4, 4, 4, 4, 1, 10, 1, 1 / 2, 0, 0⟩
    (Or.inl ⟨hacc, by simp [SA.accepted]; norm_num⟩)
    (Or.inl ⟨hacc, by simp [PTSA.accepted]; norm_num⟩)

/-- CLAIM C3. For every replica count, every gathered temperature/best-cost
list and every outcome of the skip and acceptance draws, the exchange
decision phase only transposes entries of the temperature list: the result
is a permutation of the gathered list, and sorting both (before any decay)
yields the same list. -/
theorem C3_sweep_multiset_invariant (T0 fx : List ℚ) (att : ℕ → Bool)
    (acc : ℕ → ℚ → ℚ → ℚ → ℚ → Bool) :
    List.Perm (ptsaSweep T0 fx att acc).1 T0 ∧
      List.insertionSort (· ≤ ·) (ptsaSweep T0 fx att acc).1 =
        List.insertionSort (· ≤ ·) T0 := by
  have hperm : List.Perm (ptsaSweep T0 fx att acc).1 T0 :=
    sweepUpto_fst_perm T0 fx att acc _ (le_refl _)
  refine ⟨hperm, ?_⟩
  have h1 : List.Perm
      (List.insertionSort (· ≤ ·) (ptsaSweep T0 fx att acc).1)
      (List.insertionSort (· ≤ ·) T0) :=
    ((List.perm_insertionSort _ _).trans hperm).trans
      (List.perm_insertionSort _ _).symm
  exact List.eq_of_perm_of_sorted h1 (List.sorted_insertionSort _ _)
    (List.sorted_insertionSort _ _)

/-- CLAIM C6. For a non-skipped adjacent pair the temperatures are swapped
iff the fresh uniform draw is below the acceptance rate
`exp(-fx2/T1 - fx1/T2 + fx2/T2 + fx1/T1)` applied to the values the pair
read; with `T1=1, T2=2, fx1=5, fx2=3` the rate is `exp 1`; with equal best
costs the rate is `1`, so every draw in `[0,1)` accepts. -/
theorem C6_exchange_acceptance (T0 fx : List ℚ) (att : ℕ → Bool)
    (acc : ℕ → ℚ → ℚ → ℚ → ℚ → Bool) (u : ℕ → ℝ) (i : ℕ)
    (T1v T2v fv v : ℝ)
    (hcons : ∀ n a b c d, acc n a b c d = true ↔
      u n < accRate (a : ℝ) (b : ℝ) (c : ℝ) (d : ℝ))
    (hi : i + 1 < T0.length) (hatt : att i = true)
    (hv0 : 0 ≤ v) (hv1 : v < 1) :
    (((ptsaSweep T0 fx att acc).2.getD i SweepEntry.dflt).swapped = true ↔
      u i < accRate
        ((((ptsaSweep T0 fx att acc).2.getD i SweepEntry.dflt).T1 : ℝ))
        ((((ptsaSweep T0 fx att acc).2.getD i SweepEntry.dflt).T2 : ℝ))
        ((((ptsaSweep T0 fx att acc).2.getD i SweepEntry.dflt).fx1 : ℝ))
        ((((ptsaSweep T0 fx att acc).2.getD i SweepEntry.dflt).fx2 : ℝ))) ∧
      accRate 1 2 5 3 = Real.exp 1 ∧
      accRate T1v T2v fv fv = 1 ∧
      v < accRate T1v T2v fv fv := by
  have hrate1 : accRate T1v T2v fv fv = 1 := by
    have harg : -fv / T1v - fv / T2v + fv / T2v + fv / T1v = 0 := by ring
    rw [accRate, harg, Real.exp_zero]
  refine ⟨?_, ?_, hrate1, by rw [hrate1]; exact hv1⟩
  · have htrace := sweepUpto_trace_getD T0 fx att acc i (T0.length - 1)
      (by omega)
    rw [ptsaSweep, htrace]
    simp only [hatt, Bool.true_and]
    exact hcons i _ _ _ _
  · rw [accRate]
    norm_num

/-- Witness for C6: two replicas with `T = [1, 2]`, oracle accepting iff
the zero draw is below the rate (`accRate` is always positive). -/
theorem C6_exchange_acceptance_witness :
    (((ptsaSweep [(1 : ℚ), 2] [5, 3] (fun _ => true)
          (fun _ _ _ _ _ => true)).2.getD 0 SweepEntry.dflt).swapped = true ↔
      (fun _ : ℕ => (0 : ℝ)) 0 < accRate
        ((((ptsaSweep [(1 : ℚ), 2] [5, 3] (fun _ => true)
          (fun _ _ _ _ _ => true)).2.getD 0 SweepEntry.dflt).T1 : ℝ))
        ((((ptsaSweep [(1 : ℚ), 2] [5, 3] (fun _ => true)
          (fun _ _ _ _ _ => true)).2.getD 0 SweepEntry.dflt).T2 : ℝ))
        ((((ptsaSweep [(1 : ℚ), 2] [5, 3] (fun _ => true)
          (fun _ _ _ _ _ => true)).2.getD 0 SweepEntry.dflt).fx1 : ℝ))
        ((((ptsaSweep [(1 : ℚ), 2] [5, 3] (fun _ => true)
          (fun _ _ _ _ _ => true)).2.getD 0 SweepEntry.dflt).fx2 : ℝ))) ∧
      accRate 1 2 5 3 = Real.exp 1 ∧
      accRate 1 2 7 7 = 1 ∧
      (0 : ℝ) < accRate 1 2 7 7 :=
  C6_exchange_acceptance [(1 : ℚ), 2] [5, 3] (fun _ => true)
    (fun _ _ _ _ _ => true) (fun _ => (0 : ℝ)) 0 1 2 7 0
    (fun n a b c d => ⟨fun _ => Real.exp_pos _, fun _ => rfl⟩)
    (by norm_num) rfl (le_refl 0) (by norm_num)

/-- CLAIM C7. `best_cost` never increases: not by a Metropolis trial (in
`SA.step` or `PTSA.step`), not by a full annealing step, not by cooling,
not by the scatter of exchanged temperatures, and not by a whole PTSA outer
iteration (annealing + exchange sweep + scatter + cooling) for any replica
of the pool. -/
theorem C7_best_monotone {X : Type} (obj : X → ℚ) (tr : X → X) (u : ℝ)
    (s s' : SAState X) (p p' q : PTSAState X) (reps : ℕ) (b : ℕ → Bool)
    (t : SAState X) (pool : List (PTSAState X)) (B : ℕ → ℕ → Bool)
    (att : ℕ → Bool) (acc : ℕ → ℚ → ℚ → ℚ → ℚ → Bool) (Ts : List ℚ)
    (r : ℕ) (hs : SA.TrialStep obj tr u s s')
    (hp : PTSA.TrialStep obj tr u p p') (hr : r < pool.length)
    (hTs : Ts.length = pool.length) :
    s'.best_y ≤ s.best_y ∧ p'.best_y ≤ p.best_y ∧
      (SA.stepCore obj tr reps b t).best_y ≤ t.best_y ∧
      (PTSA.stepCore obj tr reps b q).best_y ≤ q.best_y ∧
      (SA.cool t).best_y = t.best_y ∧ (PTSA.cool q).best_y = q.best_y ∧
      ((scatter pool Ts).getD r q).best_y = (pool.getD r q).best_y ∧
      ((ptsaIter obj tr reps B att acc pool).getD r q).best_y ≤
        (pool.getD r q).best_y := by
  have hsb : s'.best_y ≤ s.best_y := by
    rcases hs with ⟨-, rfl⟩ | ⟨-, rfl⟩
    · by_cases h : obj (tr s.x) < s.best_y
      · simp only [SA.accepted, if_pos h]
        exact le_of_lt h
      · simp only [SA.accepted, if_neg h]
        exact le_refl _
    · exact le_refl _
  have hpb : p'.best_y ≤ p.best_y := by
    rcases hp with ⟨-, rfl⟩ | ⟨-, rfl⟩
    · by_cases h : obj (tr p.x) < p.best_y
      · simp only [PTSA.accepted, if_pos h]
        exact le_of_lt h
      · simp only [PTSA.accepted, if_neg h]
        exact le_refl _
    · exact le_refl _
  have hscat : ((scatter pool Ts).getD r q).best_y =
      (pool.getD r q).best_y := by
    have hlen : r < (scatter pool Ts).length := by
      simp only [scatter, List.length_zipWith]
      omega
    rw [List.getD_eq_getElem _ q hlen, List.getD_eq_getElem _ q hr]
    simp only [scatter, List.getElem_zipWith]
  have hiter : ((ptsaIter obj tr reps B att acc pool).getD r q).best_y ≤
      (pool.getD r q).best_y := by
    have hp1 : (pool.mapIdx fun i a =>
        PTSA.stepCore obj tr reps (B i) a).length = pool.length := by
      simp
    have hlen : r < (ptsaIter obj tr reps B att acc pool).length := by
      rw [ptsaIter]
      rw [List.length_map, scatter, List.length_zipWith, ptsaSweep,
        sweepUpto_fst_length, List.length_map, hp1]
      omega
    rw [List.getD_eq_getElem _ q hlen, List.getD_eq_getElem _ q hr]
    simp only [ptsaIter, scatter, List.getElem_map, List.getElem_zipWith,
      List.getElem_mapIdx]
    simp only [PTSA.cool]
    exact PTSA.stepCoreBestLe obj tr reps (B r) _
  exact ⟨hsb, hpb, SA.stepCore_best_le obj tr reps b t,
    PTSA.stepCoreBestLe obj tr reps b q, rfl, rfl, hscat, hiter⟩

/-- Witness for C7 on concrete one-replica data. -/
theorem C7_best_monotone_witness :
    (⟨4, 4, 4, 4, 1, 10, 1, 1 / 2⟩ : SAState ℚ).best_y ≤
        (⟨5, 5, 5, 5, 1, 10, 1, 1 / 2⟩ : SAState ℚ).best_y ∧
      (⟨4, 4, 4, 4, 1, 10, 1, 1 / 2, 0, 0⟩ : PTSAState ℚ).best_y ≤
        (⟨5, 5, 5, 5, 1, 10, 1, 1 / 2, 0, 0⟩ : PTSAState ℚ).best_y ∧
      (SA.stepCore (fun z : ℚ => z) (· - 1) 2 (fun _ => false)
          ⟨5, 5, 5, 5, 1, 10, 1, 1 / 2⟩).best_y ≤
        (⟨5, 5, 5, 5, 1, 10, 1, 1 / 2⟩ : SAState ℚ).best_y ∧
      (PTSA.stepCore (fun z : ℚ => z) (· - 1) 2 (fun _ => false)
          ⟨5, 5, 5, 5, 1, 10, 1, 1 / 2, 0, 0⟩).best_y ≤
        (⟨5, 5, 5, 5, 1, 10, 1, 1 / 2, 0, 0⟩ : PTSAState ℚ).best_y ∧
      (SA.cool ⟨5, 5, 5, 5, 1, 10, 1, 1 / 2⟩).best_y =
        (⟨5, 5, 5, 5, 1, 10, 1, 1 / 2⟩ : SAState ℚ).best_y ∧
      (PTSA.cool ⟨5, 5, 5, 5, 1, 10, 1, 1 / 2, 0, 0⟩).best_y =
        (⟨5, 5, 5, 5, 1, 10, 1, 1 / 2, 0, 0⟩ : PTSAState ℚ).best_y ∧
      ((scatter [⟨5, 5, 5, 5, 1, 10, 1, 1 / 2, 0, 0⟩] [3]).getD 0
          ⟨5, 5, 5, 5, 1, 10, 1, 1 / 2, 0, 0⟩).best_y =
        (([⟨5, 5, 5, 5, 1, 10, 1, 1 / 2, 0, 0⟩] :
          List (PTSAState ℚ)).getD 0
          ⟨5, 5, 5, 5, 1, 10, 1, 1 / 2, 0, 0⟩).best_y ∧
      ((ptsaIter (fun z : ℚ => z) (· - 1) 2 (fun _ _ => false)
          (fun _ => true) (fun _ _ _ _ _ => true)
          [⟨5, 5, 5, 5, 1, 10, 1, 1 / 2, 0, 0⟩]).getD 0
          ⟨5, 5, 5, 5, 1, 10, 1, 1 / 2, 0, 0⟩).best_y ≤
        (([⟨5, 5, 5, 5, 1, 10, 1, 1 / 2, 0, 0⟩] :
          List (PTSAState ℚ)).getD 0
          ⟨5, 5, 5, 5, 1, 10, 1, 1 / 2, 0, 0⟩).best_y := by
  have hacc : SA.acceptCond ((fun z : ℚ => z) ((· - 1) (5 : ℚ)) - 5) 1 (1 / 2) :=
    Or.inl (by norm_num)
  exact C7_best_monotone (fun z : ℚ => z) (· - 1) (1 / 2)
    ⟨5, 5, 5, 5, 1, 10, 1, 1 / 2⟩ ⟨4, 4, 4, 4, 1, 10, 1, 1 / 2⟩
    ⟨5, 5, 5, 5, 1, 10, 1, 1 / 2, 0, 0⟩ ⟨4, 4, 4, 4, 1, 10, 1, 1 / 2, 0, 0⟩
    ⟨5, 5, 5, 5, 1, 10, 1, 1 / 2, 0, 0⟩ 2 (fun _ => false)
    ⟨5, 5, 5, 5, 1, 10, 1, 1 / 2⟩ [⟨5, 5, 5, 5, 1, 10, 1, 1 / 2, 0, 0⟩]
    (fun _ _ => false) (fun _ => true) (fun _ _ _ _ _ => true) [3] 0
    (Or.inl ⟨hacc, by simp [SA.accepted]; norm_num⟩)
    (Or.inl ⟨hacc, by simp [PTSA.accepted]; norm_num⟩)
    (by norm_num) (by norm_num)

/-- CLAIM C10. A Metropolis trial of `SA.step` / `PTSA.step` modifies at
most `x`, `y`, `best_x`, `best_y`: it never modifies `T`, `T_i`, `T_f`,
`decay`, or (in PTSA) `theta`, and a rejected trial leaves the whole state
unchanged. -/
theorem C10_trial_frame {X : Type} (obj : X → ℚ) (tr : X → X) (u : ℝ)
    (s s' : SAState X) (p p' : PTSAState X)
    (hs : SA.TrialStep obj tr u s s') (hp : PTSA.TrialStep obj tr u p p') :
    s'.T = s.T ∧ s'.T_i = s.T_i ∧ s'.T_f = s.T_f ∧ s'.decay = s.decay ∧
      p'.T = p.T ∧ p'.T_i = p.T_i ∧ p'.T_f = p.T_f ∧ p'.decay = p.decay ∧
      p'.theta = p.theta ∧ p'.rank = p.rank ∧
      (¬ SA.acceptCond (obj (tr s.x) - s.y) s.T u → s' = s) ∧
      (¬ SA.acceptCond (obj (tr p.x) - p.y) p.T u → p' = p) := by
  have hsf : s'.T = s.T ∧ s'.T_i = s.T_i ∧ s'.T_f = s.T_f ∧
      s'.decay = s.decay := by
    rcases hs with ⟨-, rfl⟩ | ⟨-, rfl⟩
    · exact ⟨rfl, rfl, rfl, rfl⟩
    · exact ⟨rfl, rfl, rfl, rfl⟩
  have hpf : p'.T = p.T ∧ p'.T_i = p.T_i ∧ p'.T_f = p.T_f ∧
      p'.decay = p.decay ∧ p'.theta = p.theta ∧ p'.rank = p.rank := by
    rcases hp with ⟨-, rfl⟩ | ⟨-, rfl⟩
    · exact ⟨rfl, rfl, rfl, rfl, rfl, rfl⟩
    · exact ⟨rfl, rfl, rfl, rfl, rfl, rfl⟩
  refine ⟨hsf.1, hsf.2.1, hsf.2.2.1, hsf.2.2.2, hpf.1, hpf.2.1, hpf.2.2.1,
    hpf.2.2.2.1, hpf.2.2.2.2.1, hpf.2.2.2.2.2, ?_, ?_⟩
  · intro hnot
    rcases hs with ⟨hacc, -⟩ | ⟨-, rfl⟩
    · exact absurd hacc hnot
    · rfl
  · intro hnot
    rcases hp with ⟨hacc, -⟩ | ⟨-, rfl⟩
    · exact absurd hacc hnot
    · rfl

/-- Witness for C10 at a concrete accepted trial. -/
theorem C10_trial_frame_witness :
    (⟨4, 4, 4, 4, 1, 10, 1, 1 / 2⟩ : SAState ℚ).T =
        (⟨5, 5, 5, 5, 1, 10, 1, 1 / 2⟩ : SAState ℚ).T ∧
      (⟨4, 4, 4, 4, 1, 10, 1, 1 / 2⟩ : SAState ℚ).T_i =
        (⟨5, 5, 5, 5, 1, 10, 1, 1 / 2⟩ : SAState ℚ).T_i ∧
      (⟨4, 4, 4, 4, 1, 10, 1, 1 / 2⟩ : SAState ℚ).T_f =
        (⟨5, 5, 5, 5, 1, 10, 1, 1 / 2⟩ : SAState ℚ).T_f ∧
      (⟨4, 4, 4, 4, 1, 10, 1, 1 / 2⟩ : SAState ℚ).decay =
        (⟨5, 5, 5, 5, 1, 10, 1, 1 / 2⟩ : SAState ℚ).decay ∧
      (⟨4, 4, 4, 4, 1, 10, 1, 1 / 2, 0, 0⟩ : PTSAState ℚ).T =
        (⟨5, 5, 5, 5, 1, 10, 1, 1 / 2, 0, 0⟩ : PTSAState ℚ).T ∧
      (⟨4, 4, 4, 4, 1, 10, 1, 1 / 2, 0, 0⟩ : PTSAState ℚ).T_i =
        (⟨5, 5, 5, 5, 1, 10, 1, 1 / 2, 0, 0⟩ : PTSAState ℚ).T_i ∧
      (⟨4, 4, 4, 4, 1, 10, 1, 1 / 2, 0, 0⟩ : PTSAState ℚ).T_f =
        (⟨5, 5, 5, 5, 1, 10, 1, 1 / 2, 0, 0⟩ : PTSAState ℚ).T_f ∧
      (⟨4, 4, 4, 4, 1, 10, 1, 1 / 2, 0, 0⟩ : PTSAState ℚ).decay =
        (⟨5, 5, 5, 5, 1, 10, 1, 1 / 2, 0, 0⟩ : PTSAState ℚ).decay ∧
      (⟨4, 4, 4, 4, 1, 10, 1, 1 / 2, 0, 0⟩ : PTSAState ℚ).theta =
        (⟨5, 5, 5, 5, 1, 10, 1, 1 / 2, 0, 0⟩ : PTSAState ℚ).theta ∧
      (⟨4, 4, 4, 4, 1, 10, 1, 1 / 2, 0, 0⟩ : PTSAState ℚ).rank =
        (⟨5, 5, 5, 5, 1, 10, 1, 1 / 2, 0, 0⟩ : PTSAState ℚ).rank ∧
      (¬ SA.acceptCond
          ((fun q : ℚ => q) ((· - 1) ((⟨5, 5, 5, 5, 1, 10, 1, 1 / 2⟩ :
            SAState ℚ).x)) - (⟨5, 5, 5, 5, 1, 10, 1, 1 / 2⟩ :
            SAState ℚ).y) (⟨5, 5, 5, 5, 1, 10, 1, 1 / 2⟩ : SAState ℚ).T
            (1 / 2) →
        (⟨4, 4, 4, 4, 1, 10, 1, 1 / 2⟩ : SAState ℚ) =
          ⟨5, 5, 5, 5, 1, 10, 1, 1 / 2⟩) ∧
      (¬ SA.acceptCond
          ((fun q : ℚ => q) ((· - 1) ((⟨5, 5, 5, 5, 1, 10, 1, 1 / 2, 0, 0⟩ :
            PTSAState ℚ).x)) - (⟨5, 5, 5, 5, 1, 10, 1, 1 / 2, 0, 0⟩ :
            PTSAState ℚ).y) (⟨5, 5, 5, 5, 1, 10, 1, 1 / 2, 0, 0⟩ :
            PTSAState ℚ).T (1 / 2) →
        (⟨4, 4, 4, 4, 1, 10, 1, 1 / 2, 0, 0⟩ : PTSAState ℚ) =
          ⟨5, 5, 5, 5, 1, 10, 1, 1 / 2, 0, 0⟩) := by
  have hacc : SA.acceptCond ((fun q : ℚ => q) ((· - 1) (5 : ℚ)) - 5) 1 (1 / 2) :=
    Or.inl (by norm_num)
  exact C10_trial_frame (fun q : ℚ => q) (· - 1) (1 / 2)
    ⟨5, 5, 5, 5, 1, 10, 1, 1 / 2⟩ ⟨4, 4, 4, 4, 1, 10, 1, 1 / 2⟩
    ⟨5, 5, 5, 5, 1, 10, 1, 1 / 2, 0, 0⟩ ⟨4, 4, 4, 4, 1, 10, 1, 1 / 2, 0, 0⟩
    (Or.inl ⟨hacc, by simp [SA.accepted]; norm_num⟩)
    (Or.inl ⟨hacc, by simp [PTSA.accepted]; norm_num⟩)

/-- CLAIM C8. With `0 < T_f < T_i` and decay `d ∈ (0,1)` the `SA.run` loop
terminates (it is defined here by well-founded recursion on the number of
remaining decays, which is exactly the source's termination argument) and
performs exactly `⌈log(T_f/T_i) / log d⌉` outer iterations before
returning `(best_x, best_y)`. -/
theorem C8_run_iteration_count {X : Type} (obj : X → ℚ) (tr : X → X)
    (reps : ℕ) (B : ℕ → ℕ → Bool) (x0 : X) (Ti Tf d : ℚ)
    (hTf : 0 < Tf) (hT : Tf < Ti) (hd0 : 0 < d) (hd1 : d < 1) :
    ((SA.runAux obj tr reps B 0 (SA.init obj x0 Ti Tf d) hTf hd0 hd1).2 :
        ℤ) = ⌈Real.log ((Tf : ℝ) / (Ti : ℝ)) / Real.log (d : ℝ)⌉ ∧
      SA.run obj tr reps B (SA.init obj x0 Ti Tf d) hTf hd0 hd1 =
        ((SA.runAux obj tr reps B 0 (SA.init obj x0 Ti Tf d)
            hTf hd0 hd1).1.best_x,
          (SA.runAux obj tr reps B 0 (SA.init obj x0 Ti Tf d)
            hTf hd0 hd1).1.best_y) := by
  constructor
  · have hc := SA.runAux_count obj tr reps B
      (decaySteps Ti Tf d (decay_reaches Ti Tf d hTf hd0 hd1)) 0
      (SA.init obj x0 Ti Tf d) hTf hd0 hd1 rfl
    rw [hc]
    exact decaySteps_eq_ceil Ti Tf d hTf hT hd0 hd1 _
  · rfl

/-- Witness for C8 at the spec's example `T_i = 100`, `T_f = 1`,
`d = 9/10`. -/
theorem C8_run_iteration_count_witness :
    ((SA.runAux (fun _ : Unit => 0) id 3 (fun _ _ => false) 0
        (SA.init (fun _ : Unit => 0) () 100 1 (9 / 10)) (by norm_num [SA.init])
        (by norm_num [SA.init]) (by norm_num [SA.init])).2 : ℤ) =
      ⌈Real.log (((1 : ℚ) : ℝ) / ((100 : ℚ) : ℝ)) /
        Real.log (((9 / 10 : ℚ) : ℝ))⌉ ∧
      SA.run (fun _ : Unit => 0) id 3 (fun _ _ => false)
          (SA.init (fun _ : Unit => 0) () 100 1 (9 / 10)) (by norm_num [SA.init])
          (by norm_num [SA.init]) (by norm_num [SA.init]) =
        ((SA.runAux (fun _ : Unit => 0) id 3 (fun _ _ => false) 0
            (SA.init (fun _ : Unit => 0) () 100 1 (9 / 10)) (by norm_num [SA.init])
            (by norm_num [SA.init]) (by norm_num [SA.init])).1.best_x,
          (SA.runAux (fun _ : Unit => 0) id 3 (fun _ _ => false) 0
            (SA.init (fun _ : Unit => 0) () 100 1 (9 / 10)) (by norm_num [SA.init])
            (by norm_num [SA.init]) (by norm_num [SA.init])).1.best_y) :=
  C8_run_iteration_count (fun _ : Unit => 0) id 3 (fun _ _ => false) ()
    100 1 (9 / 10) (by norm_num) (by norm_num) (by norm_num) (by norm_num)

theorem ptsaRun_succ {X : Type} (obj : X → ℚ) (tr : X → X) (reps k : ℕ)
    (B : ℕ → ℕ → ℕ → Bool) (att : ℕ → ℕ → Bool)
    (acc : ℕ → ℕ → ℚ → ℚ → ℚ → ℚ → Bool) (pool : List (PTSAState X)) :
    ptsaRun obj tr reps (k + 1) B att acc pool =
      ptsaIter obj tr reps (B k) (att k) (acc k)
        (ptsaRun obj tr reps k B att acc pool) := by
  simp [ptsaRun, List.range_succ]

theorem saFixedBudget_succ {X : Type} (obj : X → ℚ) (tr : X → X)
    (reps : ℕ) (B : ℕ → ℕ → Bool) (k : ℕ) (s : SAState X) :
    saFixedBudget obj tr reps B (k + 1) s =
      SA.cool (SA.stepCore obj tr reps (B k)
        (saFixedBudget obj tr reps B k s)) := by
  simp [saFixedBudget, List.range_succ]

theorem ptsaIter_singleton {X : Type} (obj : X → ℚ) (tr : X → X)
    (reps : ℕ) (B : ℕ → ℕ → Bool) (att : ℕ → Bool)
    (acc : ℕ → ℚ → ℚ → ℚ → ℚ → Bool) (q : PTSAState X) :
    ptsaIter obj tr reps B att acc [q] =
      [PTSA.cool (PTSA.stepCore obj tr reps (B 0) q)] := rfl

theorem ptsaRun_singleton {X : Type} (obj : X → ℚ) (tr : X → X)
    (reps : ℕ) (B : ℕ → ℕ → ℕ → Bool) (att : ℕ → ℕ → Bool)
    (acc : ℕ → ℕ → ℚ → ℚ → ℚ → ℚ → Bool) (p : PTSAState X) :
    ∀ iters, ∃ q : PTSAState X,
      ptsaRun obj tr reps iters B att acc [p] = [q] ∧
        q.toSA = saFixedBudget obj tr reps (fun it => B it 0) iters
          p.toSA := by
  intro iters
  induction iters with
  | zero => exact ⟨p, rfl, rfl⟩
  | succ k ih =>
      obtain ⟨q, hq, hqsa⟩ := ih
      refine ⟨PTSA.cool (PTSA.stepCore obj tr reps (B k 0) q), ?_, ?_⟩
      · rw [ptsaRun_succ, hq, ptsaIter_singleton]
      · rw [PTSA.cool_toSA, PTSA.stepCore_toSA, hqsa, saFixedBudget_succ]

/-- CLAIM C9. With a single replica the coordinator's pairwise loop runs
zero iterations (the sweep returns the gathered list unchanged and records
no pair visit, so no skip or acceptance draw is consulted), and the PTSA
run on a one-replica pool coincides, replica-state-wise, with a plain SA
process driven by a fixed budget of `iters` iterations of one annealing
step followed by one cooling step. -/
theorem C9_single_replica {X : Type} (obj : X → ℚ) (tr : X → X)
    (reps iters : ℕ) (B : ℕ → ℕ → ℕ → Bool) (att : ℕ → ℕ → Bool)
    (acc : ℕ → ℕ → ℚ → ℚ → ℚ → ℚ → Bool) (p : PTSAState X)
    (T0 fx : List ℚ) (att1 : ℕ → Bool) (acc1 : ℕ → ℚ → ℚ → ℚ → ℚ → Bool)
    (hT0 : T0.length = 1) :
    ptsaSweep T0 fx att1 acc1 = (T0, []) ∧
      (ptsaRun obj tr reps iters B att acc [p]).map PTSAState.toSA =
        [saFixedBudget obj tr reps (fun it => B it 0) iters p.toSA] := by
  constructor
  · rw [ptsaSweep, hT0]
    exact sweepUpto_zero T0 fx att1 acc1
  · obtain ⟨q, hq, hqsa⟩ :=
      ptsaRun_singleton obj tr reps B att acc p iters
    rw [hq, List.map_cons, List.map_nil, hqsa]

/-- Witness for C9 on a concrete one-replica pool. -/
theorem C9_single_replica_witness :
    ptsaSweep [(7 : ℚ)] [2] (fun _ => true) (fun _ _ _ _ _ => true) =
        ([(7 : ℚ)], []) ∧
      (ptsaRun (fun z : ℚ => z) (· - 1) 2 3 (fun _ _ _ => true)
          (fun _ _ => true) (fun _ _ _ _ _ _ => true)
          [⟨5, 5, 5, 5, 1, 10, 1, 1 / 2, 0, 0⟩]).map PTSAState.toSA =
        [saFixedBudget (fun z : ℚ => z) (· - 1) 2
          (fun it => (fun _ _ _ => true) it 0) 3
          (PTSAState.toSA ⟨5, 5, 5, 5, 1, 10, 1, 1 / 2, 0, 0⟩)] :=
  C9_single_replica (fun z : ℚ => z) (· - 1) 2 3 (fun _ _ _ => true)
    (fun _ _ => true) (fun _ _ _ _ _ _ => true)
    ⟨5, 5, 5, 5, 1, 10, 1, 1 / 2, 0, 0⟩ [(7 : ℚ)] [2] (fun _ => true)
    (fun _ _ _ _ _ => true) rfl

/-- CLAIM C1 is false on the code: at gathered temperatures `[1, 2, 3]`
(already sorted), with every pair attempted and accepted, the first
temperature fed into pair 1's acceptance computation is `1` — the value
written there by pair 0's accepted swap — and not the pre-sweep gather-time
value `2` at sorted position 1. The exchange loop mutates the temperature
list in place and later pairs read the mutated values. -/
theorem C1_counterexample_mutated_input :
    ((ptsaSweep [(1 : ℚ), 2, 3] [0, 0, 0] (fun _ => true)
        (fun _ _ _ _ _ => true)).2.getD 1 SweepEntry.dflt).T1 ≠
      [(1 : ℚ), 2, 3].getD ((argsort [(1 : ℚ), 2, 3]).getD 1 0) 0 := by
  decide

/-- CLAIM C1 (amended). In one exchange sweep, the best-cost inputs
`fx1, fx2` of every pair and the second temperature input `T2` are the
pre-sweep values captured at gather time; the first temperature input `T1`
is the pre-sweep value whenever the previous pair did not swap (in
particular for the first pair) — but an accepted swap at pair `i-1` does
change the `T1` fed into pair `i`, because the loop reads the in-place
mutated temperature list. -/
theorem C1_amended_pair_inputs (T0 fx : List ℚ) (att : ℕ → Bool)
    (acc : ℕ → ℚ → ℚ → ℚ → ℚ → Bool) (i : ℕ) (hi : i + 1 < T0.length) :
    ((ptsaSweep T0 fx att acc).2.getD i SweepEntry.dflt).fx1 =
        fx.getD ((argsort T0).getD i 0) 0 ∧
      ((ptsaSweep T0 fx att acc).2.getD i SweepEntry.dflt).fx2 =
        fx.getD ((argsort T0).getD (i + 1) 0) 0 ∧
      ((ptsaSweep T0 fx att acc).2.getD i SweepEntry.dflt).T2 =
        T0.getD ((argsort T0).getD (i + 1) 0) 0 ∧
      ((i = 0 ∨
          ((ptsaSweep T0 fx att acc).2.getD (i - 1) SweepEntry.dflt).swapped
            = false) →
        ((ptsaSweep T0 fx att acc).2.getD i SweepEntry.dflt).T1 =
          T0.getD ((argsort T0).getD i 0) 0) := by
  have hk : i < T0.length - 1 := by omega
  have htrace := sweepUpto_trace_getD T0 fx att acc i (T0.length - 1) hk
  refine ⟨?_, ?_, ?_, ?_⟩
  · rw [ptsaSweep, htrace]
  · rw [ptsaSweep, htrace]
  · rw [ptsaSweep, htrace]
    exact sweepUpto_fst_untouched T0 fx att acc i (i + 1) (by omega)
      (by omega)
  · intro h
    by_cases hi0 : i = 0
    · subst hi0
      rw [ptsaSweep, htrace]
      rfl
    · obtain ⟨j, rfl⟩ : ∃ j, i = j + 1 := ⟨i - 1, by omega⟩
      rcases h with h0 | hprev
      · exact absurd h0 hi0
      · have htj := sweepUpto_trace_getD T0 fx att acc j (T0.length - 1)
          (by omega)
        rw [ptsaSweep] at hprev
        simp only [Nat.add_sub_cancel] at hprev
        rw [htj] at hprev
        dsimp only at hprev
        rw [ptsaSweep, htrace]
        dsimp only
        rw [sweepUpto_succ]
        show (if _ then _ else _ : List ℚ).getD _ 0 = _
        rw [if_neg (by rw [hprev]; exact Bool.false_ne_true)]
        exact sweepUpto_fst_untouched T0 fx att acc j (j + 1) (by omega)
          (by omega)

/-- Witness for the amended C1 at the counterexample's data. -/
theorem C1_amended_pair_inputs_witness :
    ((ptsaSweep [(1 : ℚ), 2, 3] [0, 0, 0] (fun _ => true)
        (fun _ _ _ _ _ => true)).2.getD 1 SweepEntry.dflt).fx1 =
        [(0 : ℚ), 0, 0].getD ((argsort [(1 : ℚ), 2, 3]).getD 1 0) 0 ∧
      ((ptsaSweep [(1 : ℚ), 2, 3] [0, 0, 0] (fun _ => true)
        (fun _ _ _ _ _ => true)).2.getD 1 SweepEntry.dflt).fx2 =
        [(0 : ℚ), 0, 0].getD ((argsort [(1 : ℚ), 2, 3]).getD (1 + 1) 0) 0 ∧
      ((ptsaSweep [(1 : ℚ), 2, 3] [0, 0, 0] (fun _ => true)
        (fun _ _ _ _ _ => true)).2.getD 1 SweepEntry.dflt).T2 =
        [(1 : ℚ), 2, 3].getD ((argsort [(1 : ℚ), 2, 3]).getD (1 + 1) 0) 0 ∧
      ((1 = 0 ∨
          ((ptsaSweep [(1 : ℚ), 2, 3] [0, 0, 0] (fun _ => true)
            (fun _ _ _ _ _ => true)).2.getD (1 - 1)
              SweepEntry.dflt).swapped = false) →
        ((ptsaSweep [(1 : ℚ), 2, 3] [0, 0, 0] (fun _ => true)
          (fun _ _ _ _ _ => true)).2.getD 1 SweepEntry.dflt).T1 =
          [(1 : ℚ), 2, 3].getD ((argsort [(1 : ℚ), 2, 3]).getD 1 0) 0) :=
  C1_amended_pair_inputs [(1 : ℚ), 2, 3] [0, 0, 0] (fun _ => true)
    (fun _ _ _ _ _ => true) 1 (by norm_num)
